import Mathlib

/-!
Verification development for the offline Bluetooth troubleshooter
(`bt_ai_offline.py`).  The program's pure logic is embedded shallowly:
Python strings become `String` (manipulated through their `List Char`
data), Python dicts become association lists in insertion order,
optional/None-able values become `Option`, and the two effectful pieces
(file loading and shell execution) are modelled by explicit state/oracle
parameters.  Definitions follow the source line by line; theorems settle
the specification claims about them.
-/

namespace BTO

/-! ## Generic Python string primitives -/

/-- One step of Python `str.replace`, fuel-indexed so that it is
structurally recursive and kernel-computable.  The fuel is always
instantiated with the length of the subject string, which suffices
because a non-empty pattern consumes at least one character per step. -/
def repF : Nat → List Char → List Char → List Char → List Char
  | 0, s, _, _ => s
  | _ + 1, [], _, _ => []
  | fuel + 1, c :: rest, p, v =>
    if p.isPrefixOf (c :: rest) then
      v ++ repF fuel (List.drop p.length (c :: rest)) p v
    else
      c :: repF fuel rest p v

/-- Python `s.replace(p, v)` on character lists (for a non-empty
pattern; the program only ever replaces the non-empty placeholder
tokens, so the empty-pattern branch is never exercised). -/
def replaceL (s p v : List Char) : List Char :=
  if p = [] then s else repF s.length s p v

/-- Python `s.replace(p, v)` on strings. -/
def pyReplaceS (s p v : String) : String :=
  ⟨replaceL s.data p.data v.data⟩

/-- Python `sub in s` on character lists (substring containment). -/
def containsL : List Char → List Char → Bool
  | [], sub => sub.isPrefixOf []
  | c :: rest, sub => sub.isPrefixOf (c :: rest) || containsL rest sub

/-- Python `sub in s` for strings. -/
def pyContains (s sub : String) : Bool :=
  containsL s.data sub.data

/-- Python `s.lower()` (ASCII model). -/
def lowerS (s : String) : String := ⟨s.data.map Char.toLower⟩

/-- Python `s.upper()` (ASCII model). -/
def upperS (s : String) : String := ⟨s.data.map Char.toUpper⟩

/-- Python whitespace test used by `str.strip`. -/
def isSpaceChar (c : Char) : Bool :=
  c = ' ' || c = '\t' || c = '\n' || c = '\r' || c = '\x0b' || c = '\x0c'

/-- Python `s.strip()`. -/
def pyStrip (s : String) : String :=
  ⟨((s.data.dropWhile isSpaceChar).reverse.dropWhile isSpaceChar).reverse⟩

/-- Python `a or b` on strings (the empty string is falsy). -/
def pyOr (a b : String) : String := if a = "" then b else a

/-- Python `a or b` where `a` is a None-able string (both `None` and the
empty string are falsy and select the default). -/
def pyOrOpt (a : Option String) (b : String) : String :=
  match a with
  | none => b
  | some s => if s = "" then b else s

/-- Python `s.split(":")` on character lists. -/
def splitCol : List Char → List (List Char)
  | [] => [[]]
  | c :: rest =>
    if c = ':' then [] :: splitCol rest
    else
      match splitCol rest with
      | [] => [[c]]
      | p :: ps => (c :: p) :: ps

/-- Python `":".join(parts)` on character lists. -/
def joinCol : List (List Char) → List Char
  | [] => []
  | p :: ps => p ++ (ps.map (fun q => ':' :: q)).flatten

/-- Python dict lookup on an association list in insertion order
(`d.get(k)` / `d[k]`). -/
def alookup {α : Type} (k : String) : List (String × α) → Option α
  | [] => none
  | kv :: rest => if kv.1 = k then some kv.2 else alookup k rest

/-- Number of occurrences of a character in a string. -/
def countChar (c : Char) (s : String) : Nat := s.data.count c

/-- Python `int(s)` for a stripped string: an optional sign followed by
at least one ASCII digit; anything else fails to parse. -/
def digitsVal (ds : List Char) : Nat :=
  ds.foldl (fun acc c => 10 * acc + (c.toNat - 48)) 0

def pyInt (s : String) : Option Int :=
  match s.data with
  | [] => none
  | '+' :: ds =>
    if ds ≠ [] ∧ ds.all Char.isDigit then some (digitsVal ds : Int) else none
  | '-' :: ds =>
    if ds ≠ [] ∧ ds.all Char.isDigit then some (-(digitsVal ds : Int)) else none
  | ds =>
    if ds.all Char.isDigit then some (digitsVal ds : Int) else none

/-- Python list indexing `l[i]` as a total function: non-negative
indices are 0-based from the front, negative indices count back from
the end, and an out-of-bounds index yields `none` (`IndexError`). -/
def pyIndexGet {α : Type} (l : List α) (i : Int) : Option α :=
  if 0 ≤ i then
    if i < (l.length : Int) then l.get? i.toNat else none
  else
    if 0 ≤ (l.length : Int) + i then l.get? ((l.length : Int) + i).toNat else none

/-- Python `enumerate(l, start)`. -/
def enumFrom {α : Type} (n : Nat) : List α → List (Nat × α)
  | [] => []
  | a :: as => (n, a) :: enumFrom (n + 1) as

/-! ## Data model (spec section 3, embedded tables of the source) -/

/-- One remediation step: `{explain, commands}`. -/
structure Step where
  explain : String
  commands : List String
deriving DecidableEq

/-- One problem policy: `{description, quick_diagnostics,
remediation_steps, notes}` (`notes` optional). -/
structure PolicyEntry where
  description : String
  quick_diagnostics : List String
  remediation_steps : List Step
  notes : Option String
deriving DecidableEq

/-- `EMBEDDED_VENDORS` from the source, in source order. -/
def EMBEDDED_VENDORS : List (String × String) :=
  [("00:1A:7D", "Apple, Inc."),
   ("00:12:EF", "Logitech"),
   ("58:7E:5A", "Xiaomi / Redmi"),
   ("A4:5E:60", "Samsung"),
   ("FC:FB:FB", "JBL"),
   ("8C:64:A2", "Generic Vendor")]

def NO_ADAPTER_ENTRY : PolicyEntry :=
  { description := "No bluetooth adapter found.",
    quick_diagnostics := ["lsusb", "dmesg | grep -i bluetooth"],
    remediation_steps :=
      [{ explain := "Check lsusb/lspci",
         commands := ["lsusb", "lspci -nn | grep -i bluetooth || true"] },
       { explain := "Unblock if blocked",
         commands := ["sudo rfkill unblock bluetooth"] }],
    notes := some "Ensure firmware is present." }

def CONNECT_AUDIO_ENTRY : PolicyEntry :=
  { description := "Audio device pairs but no audio / cannot connect A2DP.",
    quick_diagnostics :=
      ["pactl list cards short", "pactl list sinks short",
       "sudo bluetoothctl info <MAC>"],
    remediation_steps :=
      [{ explain := "Install audio Bluetooth modules",
         commands := ["sudo apt install -y pipewire libspa-0.2-bluetooth || sudo apt install -y pulseaudio pulseaudio-module-bluetooth"] },
       { explain := "Restart services",
         commands := ["sudo systemctl restart bluetooth", "systemctl --user restart pipewire pipewire-pulse || systemctl --user restart pulseaudio || true"] }],
    notes := some "Codec support depends on installed modules." }

/-- `EMBEDDED_PROBS` from the source, in source (dict insertion) order. -/
def EMBEDDED_PROBS : List (String × PolicyEntry) :=
  [("no_adapter", NO_ADAPTER_ENTRY),
   ("connect_failed_audio", CONNECT_AUDIO_ENTRY)]

/-! ## Data loader (`load_json`, source lines 13-20)

The filesystem is modelled by an explicit state: the file is missing,
present but not valid JSON, or present with a decoded value.  The
second component of the result collects the warning lines printed. -/

inductive FileState (J : Type) where
  | missing
  | invalid (err : String)
  | valid (j : J)

def load_json {J : Type} (path : String) (st : FileState J) (fallback : J) :
    J × List String :=
  match st with
  | .missing => (fallback, [])
  | .invalid e => (fallback, ["[warn] failed to load " ++ path ++ ": " ++ e])
  | .valid j => (j, [])

/-! ## Vendor resolver (`guess_vendor`, source lines 66-70) -/

/-- `":".join(mac.upper().split(":")[:3])`. -/
def firstThreeOctets (mac : String) : String :=
  ⟨joinCol ((splitCol (upperS mac).data).take 3)⟩

def guess_vendor (mac : String) (vendors : List (String × String)) :
    Option String :=
  if mac = "" then none
  else alookup (firstThreeOctets mac) vendors

/-! ## Command runner (`run_command`, source lines 72-77)

Shell execution is modelled by an oracle taking the command text and
the timeout value and returning either captured standard output or a
raised exception (which subsumes `TimeoutExpired`). -/

inductive RunOutcome where
  | ok (stdout : String)
  | exc (msg : String)

def run_command (runner : String → Nat → RunOutcome) (cmd : String) : String :=
  match runner cmd 15 with
  | .ok out => pyStrip out
  | .exc e => "Error: " ++ e

/-! ## Plan formatter (`format_plan`, source lines 93-119) -/

/-- Placeholder substitution of source line 112: replace `<MAC>`,
`<vendor>`, `<model>` in sequence, each defaulting to the literal token
when the value is absent or empty (Python `mac or "<MAC>"` etc.). -/
def substCmd (c : String) (mac vendor model : Option String) : String :=
  pyReplaceS
    (pyReplaceS
      (pyReplaceS c "<MAC>" (pyOrOpt mac "<MAC>"))
      "<vendor>" (pyOrOpt vendor "<vendor>"))
    "<model>" (pyOrOpt model "<model>")

/-- The fuzzy-match test of source line 97:
`key.lower() in k.lower() or key.lower() in v.get("description","").lower()`. -/
def matchPred (key : String) (kv : String × PolicyEntry) : Bool :=
  pyContains (lowerS kv.1) (lowerS key) ||
    pyContains (lowerS kv.2.description) (lowerS key)

/-- Key resolution of source lines 94-101: exact key match first,
otherwise the first entry (in table order) whose key or description
contains the input case-insensitively. -/
def resolveKey (key : String) (probs : List (String × PolicyEntry)) :
    Option String :=
  if (alookup key probs).isSome then some key
  else
    match probs.find? (matchPred key) with
    | some kv => some kv.1
    | none => none

/-- Source lines 114-115: `if entry.get("notes"):` (both a missing and
an empty notes field are falsy). -/
def notesLines (notes : Option String) : List String :=
  match notes with
  | some s => if s ≠ "" then ["\nNotes: " ++ s] else []
  | none => []

/-- Source lines 116-118: `if mac and vendor_map:` (empty string and
empty dict are falsy), then the vendor-guess line. -/
def vendorGuessLine (mac : Option String)
    (vendor_map : Option (List (String × String))) : List String :=
  match mac, vendor_map with
  | some ms, some vmap =>
    if ms ≠ "" ∧ vmap ≠ [] then
      ["\nVendor guess: " ++ pyOrOpt (guess_vendor ms vmap) "Unknown"]
    else []
  | _, _ => []

/-- Source lines 102-119: the report rendered for an already-resolved
entry (the `out` list joined with newlines). -/
def renderEntry (entry : PolicyEntry) (mac vendor model : Option String)
    (vendor_map : Option (List (String × String))) : String :=
  String.intercalate "\n"
    (["Problem: " ++ entry.description ++ "\n", "Quick diagnostics:"]
      ++ entry.quick_diagnostics.map (fun c => "  $ " ++ c)
      ++ ["\nRemediation steps:"]
      ++ ((enumFrom 1 entry.remediation_steps).map (fun p =>
            ("\nStep " ++ toString p.1 ++ ": " ++ p.2.explain)
              :: p.2.commands.map (fun c => "  $ " ++ substCmd c mac vendor model))).flatten
      ++ notesLines entry.notes
      ++ vendorGuessLine mac vendor_map)

/-- `format_plan` of source lines 93-119.  The `dev_type` parameter is
accepted and, as in the source, never used. -/
def format_plan (key : String) (probs : List (String × PolicyEntry))
    (mac dev_type vendor model : Option String)
    (vendor_map : Option (List (String × String))) : String :=
  match resolveKey key probs with
  | none =>
    "No policy found for \x27" ++ key ++ "\x27. Available: "
      ++ String.intercalate ", " (probs.map Prod.fst)
  | some k =>
    match alookup k probs with
    | some entry => renderEntry entry mac vendor model vendor_map
    | none => ""

/-! ## Numeric/string choice resolution (`main`, source lines 140-145) -/

def resolve_choice (choice : String) (keys : List String) : String :=
  match pyInt choice with
  | some n =>
    match pyIndexGet keys (n - 1) with
    | some k => k
    | none => choice
  | none => choice

/-! ## Automatic execution (`main`, source lines 154-161) -/

/-- Substitution of source line 158:
`cmd.replace("<MAC>", mac or "").replace("<vendor>", vname).replace("<model>", mname)`. -/
def substExec (c : String) (mac vname mname : String) : String :=
  pyReplaceS (pyReplaceS (pyReplaceS c "<MAC>" (pyOr mac "")) "<vendor>" vname)
    "<model>" mname

/-- The nested loop of source lines 156-161: every command of every
remediation step is substituted, run, and paired with its captured
output. -/
def execute_plan (runner : String → Nat → RunOutcome) (entry : PolicyEntry)
    (mac vname mname : String) : List (String × String) :=
  (entry.remediation_steps.map (fun st =>
    st.commands.map (fun cmd =>
      (substExec cmd mac vname mname,
       run_command runner (substExec cmd mac vname mname))))).flatten

/-- A shell oracle that fails every command (e.g. a timeout raised by
the runner). -/
def RUN_FAIL : String → Nat → RunOutcome := fun _ _ => RunOutcome.exc "timeout"

/-- A shell oracle that succeeds on every command with fixed output. -/
def RUN_OK : String → Nat → RunOutcome := fun _ _ => RunOutcome.ok " done "

/-! ## Command templates as block lists

To reason about the placeholder substitution of `substCmd`, a command
template is viewed as a concatenation of literal segments and
placeholder tokens.  This is the verification-side decomposition of a
command string; `renderB` maps it back to the flat string the source
operates on. -/

inductive Tok where
  | mac
  | vendor
  | model
deriving DecidableEq

def tokStr : Tok → String
  | .mac => "<MAC>"
  | .vendor => "<vendor>"
  | .model => "<model>"

inductive Blk where
  | lit (s : String)
  | tok (t : Tok)
deriving DecidableEq

def blkL : Blk → List Char
  | .lit s => s.data
  | .tok t => (tokStr t).data

def renderB (bs : List Blk) : String := ⟨(bs.map blkL).flatten⟩

/-- The value a `Python x or default` substitution effectively uses:
`none` when the value is absent or empty (the token is then kept),
otherwise the value itself. -/
def effVal : Option String → Option String
  | none => none
  | some s => if s = "" then none else some s

/-- Replace one token by a literal value in a block. -/
def blkSubst (t : Tok) (w : String) : Blk → Blk
  | .tok u => if u = t then .lit w else .tok u
  | .lit s => .lit s

/-- The effect of one `replace` call of source line 112 on a block list. -/
def applyTok (t : Tok) (v : Option String) (bs : List Blk) : List Blk :=
  match effVal v with
  | none => bs
  | some w => bs.map (blkSubst t w)

/-- The effect of the full substitution of source line 112 on a block
list. -/
def substB (mac vendor model : Option String) (bs : List Blk) : List Blk :=
  applyTok .model model (applyTok .vendor vendor (applyTok .mac mac bs))

/-- Every literal segment is free of the character that starts a
placeholder token. -/
def litsOK (bs : List Blk) : Bool :=
  bs.all (fun b => match b with
    | .lit s => decide ('<' ∉ s.data)
    | .tok _ => true)

/-- A substitution value, when effectively supplied, is free of the
character that starts a placeholder token. -/
def valOK (v : Option String) : Bool :=
  match effVal v with
  | none => true
  | some w => decide ('<' ∉ w.data)

/-! ## Structural lemmas about `replaceL` and `containsL` -/

theorem repF_congr (p v : List Char) (hp : p ≠ []) :
    ∀ (n : Nat) (s : List Char) (f₁ f₂ : Nat), s.length ≤ n →
      s.length ≤ f₁ → s.length ≤ f₂ → repF f₁ s p v = repF f₂ s p v := by
  intro n
  induction n with
  | zero =>
    intro s f₁ f₂ hs _ _
    have hsnil : s = [] := List.length_eq_zero.mp (Nat.le_zero.mp hs)
    subst hsnil
    cases f₁ <;> cases f₂ <;> rfl
  | succ n ih =>
    intro s f₁ f₂ hs h₁ h₂
    cases s with
    | nil => cases f₁ <;> cases f₂ <;> rfl
    | cons c rest =>
      cases f₁ with
      | zero => simp at h₁
      | succ g₁ =>
        cases f₂ with
        | zero => simp at h₂
        | succ g₂ =>
          have hplen : 1 ≤ p.length := by
            cases p with
            | nil => exact absurd rfl hp
            | cons a as => simp
          simp only [repF]
          by_cases hpre : p.isPrefixOf (c :: rest) = true
          · rw [if_pos hpre, if_pos hpre]
            have hd : ∀ m : Nat, (List.drop p.length (c :: rest)).length ≤ m ↔
                (c :: rest).length - p.length ≤ m := by
              intro m; rw [List.length_drop]
            congr 1
            apply ih
            · rw [List.length_drop]; simp only [List.length_cons] at hs ⊢; omega
            · rw [List.length_drop]; simp only [List.length_cons] at h₁ ⊢; omega
            · rw [List.length_drop]; simp only [List.length_cons] at h₂ ⊢; omega
          · rw [if_neg hpre, if_neg hpre]
            congr 1
            apply ih
            · simp only [List.length_cons] at hs; omega
            · simp only [List.length_cons] at h₁; omega
            · simp only [List.length_cons] at h₂; omega

theorem replaceL_nil (p v : List Char) : replaceL [] p v = [] := by
  unfold replaceL
  split
  · rfl
  · rfl

theorem replaceL_eq_match (p v : List Char) (hp : p ≠ []) (s : List Char)
    (hpre : p.isPrefixOf s = true) :
    replaceL s p v = v ++ replaceL (s.drop p.length) p v := by
  cases s with
  | nil =>
    cases p with
    | nil => exact absurd rfl hp
    | cons a as => simp [List.isPrefixOf] at hpre
  | cons c rest =>
    have hplen : 1 ≤ p.length := by
      cases p with
      | nil => exact absurd rfl hp
      | cons a as => simp
    unfold replaceL
    rw [if_neg hp, if_neg hp]
    simp only [List.length_cons, repF, if_pos hpre]
    congr 1
    apply repF_congr p v hp ((c :: rest).length)
    · rw [List.length_drop]; simp only [List.length_cons]; omega
    · rw [List.length_drop]; simp only [List.length_cons]; omega
    · exact le_rfl

theorem replaceL_cons_nomatch (p v : List Char) (hp : p ≠ []) (c : Char)
    (rest : List Char) (hpre : ¬ p.isPrefixOf (c :: rest) = true) :
    replaceL (c :: rest) p v = c :: replaceL rest p v := by
  unfold replaceL
  rw [if_neg hp, if_neg hp]
  simp only [List.length_cons, repF, if_neg hpre]

theorem replaceL_append_lit (p v lit s : List Char) (hp : p ≠ [])
    (hph : p.head? = some '<') (hlit : '<' ∉ lit) :
    replaceL (lit ++ s) p v = lit ++ replaceL s p v := by
  induction lit with
  | nil => simp
  | cons c cs ih =>
    have hc : c ≠ '<' := by
      intro h
      exact hlit (h ▸ List.mem_cons_self c cs)
    have hnpre : ¬ p.isPrefixOf (c :: (cs ++ s)) = true := by
      cases p with
      | nil => exact absurd rfl hp
      | cons a as =>
        have ha : a = '<' := by simpa using hph
        subst ha
        simp only [List.isPrefixOf, Bool.and_eq_true, beq_iff_eq]
        intro hcontra
        exact hc hcontra.1.symm
    rw [List.cons_append, replaceL_cons_nomatch p v hp c (cs ++ s) hnpre,
        ih (fun hm => hlit (List.mem_cons_of_mem c hm)), List.cons_append]

theorem replaceL_append_self (p v s : List Char) (hp : p ≠ []) :
    replaceL (p ++ s) p v = v ++ replaceL s p v := by
  have hpre : p.isPrefixOf (p ++ s) = true :=
    List.isPrefixOf_iff_prefix.mpr (List.prefix_append p s)
  rw [replaceL_eq_match p v hp (p ++ s) hpre, List.drop_left]

theorem replaceL_self (p : List Char) (hp : p ≠ []) :
    ∀ s, replaceL s p p = s := by
  suffices h : ∀ (n : Nat) (s : List Char), s.length ≤ n → replaceL s p p = s by
    intro s; exact h s.length s le_rfl
  intro n
  induction n with
  | zero =>
    intro s hs
    have hsnil : s = [] := List.length_eq_zero.mp (Nat.le_zero.mp hs)
    subst hsnil
    exact replaceL_nil p p
  | succ n ih =>
    intro s hs
    have hplen : 1 ≤ p.length := by
      cases p with
      | nil => exact absurd rfl hp
      | cons a as => simp
    by_cases hpre : p.isPrefixOf s = true
    · obtain ⟨t, rfl⟩ := List.isPrefixOf_iff_prefix.mp hpre
      rw [replaceL_append_self p p t hp,
        ih t (by simp only [List.length_append] at hs; omega)]
    · cases s with
      | nil => exact replaceL_nil p p
      | cons c rest =>
        rw [replaceL_cons_nomatch p p hp c rest hpre,
          ih rest (by simp only [List.length_cons] at hs; omega)]

theorem containsL_append_lit (p lit s : List Char) (hp : p ≠ [])
    (hph : p.head? = some '<') (hlit : '<' ∉ lit) :
    containsL (lit ++ s) p = containsL s p := by
  induction lit with
  | nil => rfl
  | cons c cs ih =>
    have hc : c ≠ '<' := by
      intro h
      exact hlit (h ▸ List.mem_cons_self c cs)
    have hnpre : p.isPrefixOf (c :: (cs ++ s)) = false := by
      cases p with
      | nil => exact absurd rfl hp
      | cons a as =>
        have ha : a = '<' := by simpa using hph
        subst ha
        simp only [List.isPrefixOf, Bool.and_eq_false_iff, beq_eq_false_iff_ne, ne_eq]
        exact Or.inl (fun h => hc h.symm)
    rw [List.cons_append]
    show (p.isPrefixOf (c :: (cs ++ s)) || containsL (cs ++ s) p) = containsL s p
    rw [hnpre, Bool.false_or, ih (fun hm => hlit (List.mem_cons_of_mem c hm))]

/-! ## Lemmas about tokens, blocks and the substitution of line 112 -/

theorem pyOrOpt_effVal (v : Option String) (d : String) :
    pyOrOpt v d = (effVal v).getD d := by
  cases v with
  | none => rfl
  | some s =>
    by_cases h : s = ""
    · simp [pyOrOpt, effVal, h]
    · simp [pyOrOpt, effVal, h]

theorem tokStr_ne_nil (t : Tok) : (tokStr t).data ≠ [] := by
  cases t <;> simp [tokStr]

theorem tokStr_head (t : Tok) : (tokStr t).data.head? = some '<' := by
  cases t <;> rfl

theorem tokStr_tail_no_lt (t : Tok) : '<' ∉ (tokStr t).data.tail := by
  cases t <;> decide

theorem tokStr_shape (t : Tok) : (tokStr t).data = '<' :: (tokStr t).data.tail := by
  cases t <;> rfl

theorem tok_isPrefixOf_false (t u : Tok) (hne : t ≠ u) (r : List Char) :
    (tokStr t).data.isPrefixOf ((tokStr u).data ++ r) = false := by
  cases t <;> cases u <;> first
    | exact absurd rfl hne
    | rfl

theorem replaceL_append_tok (t u : Tok) (hne : t ≠ u) (v s : List Char) :
    replaceL ((tokStr u).data ++ s) (tokStr t).data v
      = (tokStr u).data ++ replaceL s (tokStr t).data v := by
  have hp := tokStr_ne_nil t
  have hnpre : ¬ (tokStr t).data.isPrefixOf ('<' :: ((tokStr u).data.tail ++ s)) = true := by
    have hnf := tok_isPrefixOf_false t u hne s
    rw [tokStr_shape u, List.cons_append] at hnf
    rw [hnf]
    exact Bool.false_ne_true
  calc replaceL ((tokStr u).data ++ s) (tokStr t).data v
      = replaceL ('<' :: ((tokStr u).data.tail ++ s)) (tokStr t).data v := by
        rw [← List.cons_append, ← tokStr_shape u]
    _ = '<' :: replaceL ((tokStr u).data.tail ++ s) (tokStr t).data v :=
        replaceL_cons_nomatch _ _ hp _ _ hnpre
    _ = '<' :: ((tokStr u).data.tail ++ replaceL s (tokStr t).data v) := by
        rw [replaceL_append_lit _ _ _ _ hp (tokStr_head t) (tokStr_tail_no_lt u)]
    _ = (tokStr u).data ++ replaceL s (tokStr t).data v := by
        rw [← List.cons_append, ← tokStr_shape u]

theorem containsL_append_tok (t u : Tok) (hne : t ≠ u) (s : List Char) :
    containsL ((tokStr u).data ++ s) (tokStr t).data
      = containsL s (tokStr t).data := by
  have hnf : (tokStr t).data.isPrefixOf ('<' :: ((tokStr u).data.tail ++ s)) = false := by
    have h := tok_isPrefixOf_false t u hne s
    rw [tokStr_shape u, List.cons_append] at h
    exact h
  calc containsL ((tokStr u).data ++ s) (tokStr t).data
      = containsL ('<' :: ((tokStr u).data.tail ++ s)) (tokStr t).data := by
        rw [← List.cons_append, ← tokStr_shape u]
    _ = ((tokStr t).data.isPrefixOf ('<' :: ((tokStr u).data.tail ++ s))
          || containsL ((tokStr u).data.tail ++ s) (tokStr t).data) := rfl
    _ = containsL ((tokStr u).data.tail ++ s) (tokStr t).data := by
        rw [hnf, Bool.false_or]
    _ = containsL s (tokStr t).data :=
        containsL_append_lit _ _ _ (tokStr_ne_nil t) (tokStr_head t) (tokStr_tail_no_lt u)

theorem renderB_nil : (renderB []).data = [] := rfl

theorem renderB_cons (b : Blk) (bs : List Blk) :
    (renderB (b :: bs)).data = blkL b ++ (renderB bs).data := rfl

theorem blkSubst_tok_self (t : Tok) (w : String) :
    blkSubst t w (Blk.tok t) = Blk.lit w := by
  simp [blkSubst]

theorem blkSubst_tok_other (t u : Tok) (w : String) (h : u ≠ t) :
    blkSubst t w (Blk.tok u) = Blk.tok u := by
  simp [blkSubst, h]

theorem applyTok_none (t : Tok) (v : Option String) (bs : List Blk)
    (hev : effVal v = none) : applyTok t v bs = bs := by
  unfold applyTok
  rw [hev]

theorem applyTok_some (t : Tok) (v : Option String) (w : String) (bs : List Blk)
    (hev : effVal v = some w) : applyTok t v bs = bs.map (blkSubst t w) := by
  unfold applyTok
  rw [hev]

theorem replace_renderB_some (t : Tok) (w : String) (bs : List Blk)
    (hlit : ∀ s, Blk.lit s ∈ bs → '<' ∉ s.data) :
    replaceL (renderB bs).data (tokStr t).data w.data
      = (renderB (bs.map (blkSubst t w))).data := by
  induction bs with
  | nil =>
    rw [renderB_nil, List.map_nil, renderB_nil]
    exact replaceL_nil _ _
  | cons b bs ih =>
    have ih' := ih (fun s hs => hlit s (List.mem_cons_of_mem b hs))
    cases b with
    | lit s =>
      rw [renderB_cons, List.map_cons, renderB_cons]
      show replaceL (s.data ++ (renderB bs).data) (tokStr t).data w.data
          = s.data ++ (renderB (bs.map (blkSubst t w))).data
      rw [replaceL_append_lit _ _ _ _ (tokStr_ne_nil t) (tokStr_head t)
            (hlit s (List.mem_cons_self _ _)), ih']
    | tok u =>
      by_cases hut : u = t
      · subst hut
        rw [renderB_cons, List.map_cons, blkSubst_tok_self, renderB_cons]
        show replaceL ((tokStr u).data ++ (renderB bs).data) (tokStr u).data w.data
            = w.data ++ (renderB (bs.map (blkSubst u w))).data
        rw [replaceL_append_self _ _ _ (tokStr_ne_nil u), ih']
      · rw [renderB_cons, List.map_cons, blkSubst_tok_other t u w hut, renderB_cons]
        show replaceL ((tokStr u).data ++ (renderB bs).data) (tokStr t).data w.data
            = (tokStr u).data ++ (renderB (bs.map (blkSubst t w))).data
        rw [replaceL_append_tok t u (fun h => hut h.symm) w.data (renderB bs).data, ih']

theorem replace_renderB (t : Tok) (v : Option String) (bs : List Blk)
    (hlit : ∀ s, Blk.lit s ∈ bs → '<' ∉ s.data) :
    pyReplaceS (renderB bs) (tokStr t) (pyOrOpt v (tokStr t))
      = renderB (applyTok t v bs) := by
  cases hev : effVal v with
  | none =>
    have h1 : pyOrOpt v (tokStr t) = tokStr t := by
      rw [pyOrOpt_effVal, hev]
      rfl
    rw [h1, applyTok_none t v bs hev]
    show String.mk (replaceL (renderB bs).data (tokStr t).data (tokStr t).data)
        = renderB bs
    rw [replaceL_self _ (tokStr_ne_nil t)]
  | some w =>
    have h1 : pyOrOpt v (tokStr t) = w := by
      rw [pyOrOpt_effVal, hev]
      rfl
    rw [h1, applyTok_some t v w bs hev]
    show String.mk (replaceL (renderB bs).data (tokStr t).data w.data)
        = renderB (bs.map (blkSubst t w))
    rw [replace_renderB_some t w bs hlit]

theorem applyTok_lits (t : Tok) (v : Option String) (bs : List Blk)
    (hlit : ∀ s, Blk.lit s ∈ bs → '<' ∉ s.data)
    (hv : ∀ w, effVal v = some w → '<' ∉ w.data) :
    ∀ s, Blk.lit s ∈ applyTok t v bs → '<' ∉ s.data := by
  intro s hs
  cases hev : effVal v with
  | none =>
    rw [applyTok_none t v bs hev] at hs
    exact hlit s hs
  | some w =>
    rw [applyTok_some t v w bs hev] at hs
    obtain ⟨b, hb, hbe⟩ := List.mem_map.mp hs
    cases b with
    | lit s' =>
      injection hbe with h
      subst h
      exact hlit s' hb
    | tok u =>
      by_cases hut : u = t
      · rw [hut, blkSubst_tok_self] at hbe
        injection hbe with h
        subst h
        exact hv w hev
      · rw [blkSubst_tok_other t u w hut] at hbe
        exact absurd hbe (by simp)

theorem map_blkSubst_id (t : Tok) (w : String) (bs : List Blk)
    (h : Blk.tok t ∉ bs) : bs.map (blkSubst t w) = bs := by
  induction bs with
  | nil => rfl
  | cons b bs ih =>
    have h' : Blk.tok t ∉ bs := fun hm => h (List.mem_cons_of_mem b hm)
    cases b with
    | lit s =>
      rw [List.map_cons, ih h']
      rfl
    | tok u =>
      have hut : u ≠ t := by
        intro he
        exact h (by rw [← he]; exact List.mem_cons_self _ _)
      rw [List.map_cons, blkSubst_tok_other t u w hut, ih h']

theorem applyTok_id_of_noTok (t : Tok) (v : Option String) (bs : List Blk)
    (h : Blk.tok t ∉ bs) : applyTok t v bs = bs := by
  cases hev : effVal v with
  | none => exact applyTok_none t v bs hev
  | some w => rw [applyTok_some t v w bs hev, map_blkSubst_id t w bs h]

theorem noTok_applyTok_self (t : Tok) (v : Option String) (w : String)
    (hev : effVal v = some w) (bs : List Blk) :
    Blk.tok t ∉ applyTok t v bs := by
  rw [applyTok_some t v w bs hev]
  intro hmem
  obtain ⟨b, hb, hbe⟩ := List.mem_map.mp hmem
  cases b with
  | lit s => exact absurd hbe (by simp [blkSubst])
  | tok u =>
    by_cases hut : u = t
    · rw [hut, blkSubst_tok_self] at hbe
      exact absurd hbe (by simp)
    · rw [blkSubst_tok_other t u w hut] at hbe
      injection hbe with h
      exact hut h

theorem noTok_applyTok_of (t u : Tok) (v : Option String) (bs : List Blk)
    (h : Blk.tok t ∉ bs) : Blk.tok t ∉ applyTok u v bs := by
  cases hev : effVal v with
  | none => rw [applyTok_none u v bs hev]; exact h
  | some w =>
    rw [applyTok_some u v w bs hev]
    intro hmem
    obtain ⟨b, hb, hbe⟩ := List.mem_map.mp hmem
    cases b with
    | lit s => exact absurd hbe (by simp [blkSubst])
    | tok u' =>
      by_cases hu : u' = u
      · rw [hu, blkSubst_tok_self] at hbe
        exact absurd hbe (by simp)
      · rw [blkSubst_tok_other u u' w hu] at hbe
        injection hbe with h'
        subst h'
        exact h hb

theorem substB_lits (mac vendor model : Option String) (bs : List Blk)
    (hlit : ∀ s, Blk.lit s ∈ bs → '<' ∉ s.data)
    (hm : ∀ w, effVal mac = some w → '<' ∉ w.data)
    (hv : ∀ w, effVal vendor = some w → '<' ∉ w.data)
    (hmo : ∀ w, effVal model = some w → '<' ∉ w.data) :
    ∀ s, Blk.lit s ∈ substB mac vendor model bs → '<' ∉ s.data := by
  unfold substB
  exact applyTok_lits _ _ _ (applyTok_lits _ _ _ (applyTok_lits _ _ _ hlit hm) hv) hmo

theorem substB_noTok_mac (mac vendor model : Option String) (bs : List Blk)
    (w : String) (hev : effVal mac = some w) :
    Blk.tok Tok.mac ∉ substB mac vendor model bs := by
  unfold substB
  exact noTok_applyTok_of _ _ _ _
    (noTok_applyTok_of _ _ _ _ (noTok_applyTok_self Tok.mac mac w hev bs))

theorem substB_noTok_vendor (mac vendor model : Option String) (bs : List Blk)
    (w : String) (hev : effVal vendor = some w) :
    Blk.tok Tok.vendor ∉ substB mac vendor model bs := by
  unfold substB
  exact noTok_applyTok_of _ _ _ _ (noTok_applyTok_self Tok.vendor vendor w hev _)

theorem substB_noTok_model (mac vendor model : Option String) (bs : List Blk)
    (w : String) (hev : effVal model = some w) :
    Blk.tok Tok.model ∉ substB mac vendor model bs := by
  unfold substB
  exact noTok_applyTok_self Tok.model model w hev _

theorem substB_substB (mac vendor model : Option String) (bs : List Blk) :
    substB mac vendor model (substB mac vendor model bs)
      = substB mac vendor model bs := by
  have hmac : applyTok Tok.mac mac (substB mac vendor model bs)
      = substB mac vendor model bs := by
    cases hev : effVal mac with
    | none => exact applyTok_none _ _ _ hev
    | some w =>
      exact applyTok_id_of_noTok _ _ _ (substB_noTok_mac mac vendor model bs w hev)
  have hven : applyTok Tok.vendor vendor (substB mac vendor model bs)
      = substB mac vendor model bs := by
    cases hev : effVal vendor with
    | none => exact applyTok_none _ _ _ hev
    | some w =>
      exact applyTok_id_of_noTok _ _ _ (substB_noTok_vendor mac vendor model bs w hev)
  have hmod : applyTok Tok.model model (substB mac vendor model bs)
      = substB mac vendor model bs := by
    cases hev : effVal model with
    | none => exact applyTok_none _ _ _ hev
    | some w =>
      exact applyTok_id_of_noTok _ _ _ (substB_noTok_model mac vendor model bs w hev)
  show applyTok .model model (applyTok .vendor vendor
    (applyTok .mac mac (substB mac vendor model bs))) = substB mac vendor model bs
  rw [hmac, hven, hmod]

theorem substCmd_renderB (bs : List Blk) (mac vendor model : Option String)
    (hlit : ∀ s, Blk.lit s ∈ bs → '<' ∉ s.data)
    (hm : ∀ w, effVal mac = some w → '<' ∉ w.data)
    (hv : ∀ w, effVal vendor = some w → '<' ∉ w.data) :
    substCmd (renderB bs) mac vendor model = renderB (substB mac vendor model bs) := by
  show pyReplaceS (pyReplaceS (pyReplaceS (renderB bs) (tokStr .mac) (pyOrOpt mac (tokStr .mac)))
      (tokStr .vendor) (pyOrOpt vendor (tokStr .vendor)))
      (tokStr .model) (pyOrOpt model (tokStr .model)) = renderB (substB mac vendor model bs)
  rw [replace_renderB Tok.mac mac bs hlit,
      replace_renderB Tok.vendor vendor _ (applyTok_lits _ _ _ hlit hm),
      replace_renderB Tok.model model _
        (applyTok_lits _ _ _ (applyTok_lits _ _ _ hlit hm) hv)]
  rfl

theorem containsL_renderB_false (t : Tok) (bs : List Blk)
    (hlit : ∀ s, Blk.lit s ∈ bs → '<' ∉ s.data)
    (hnt : Blk.tok t ∉ bs) :
    containsL (renderB bs).data (tokStr t).data = false := by
  induction bs with
  | nil =>
    rw [renderB_nil]
    show (tokStr t).data.isPrefixOf [] = false
    cases t <;> rfl
  | cons b bs ih =>
    have ih' := ih (fun s hs => hlit s (List.mem_cons_of_mem b hs))
      (fun hm => hnt (List.mem_cons_of_mem b hm))
    cases b with
    | lit s =>
      rw [renderB_cons]
      show containsL (s.data ++ (renderB bs).data) (tokStr t).data = false
      rw [containsL_append_lit _ _ _ (tokStr_ne_nil t) (tokStr_head t)
            (hlit s (List.mem_cons_self _ _)), ih']
    | tok u =>
      have hut : t ≠ u := by
        intro he
        exact hnt (by rw [he]; exact List.mem_cons_self _ _)
      rw [renderB_cons]
      show containsL ((tokStr u).data ++ (renderB bs).data) (tokStr t).data = false
      rw [containsL_append_tok t u hut _, ih']

theorem litsOK_spec (bs : List Blk) (h : litsOK bs = true) :
    ∀ s, Blk.lit s ∈ bs → '<' ∉ s.data := by
  intro s hs
  exact of_decide_eq_true (List.all_eq_true.mp h (Blk.lit s) hs)

theorem valOK_spec (v : Option String) (h : valOK v = true) :
    ∀ w, effVal v = some w → '<' ∉ w.data := by
  intro w hev
  unfold valOK at h
  rw [hev] at h
  exact of_decide_eq_true h

/-! ## Lemmas about `alookup`, `find?`, `splitCol`, `joinCol`, `pyIndexGet` -/

theorem alookup_eq_none {α : Type} (k : String) (t : List (String × α))
    (h : ∀ kv ∈ t, kv.1 ≠ k) : alookup k t = none := by
  induction t with
  | nil => rfl
  | cons kv rest ih =>
    unfold alookup
    rw [if_neg (h kv (List.mem_cons_self _ _))]
    exact ih (fun kv' hm => h kv' (List.mem_cons_of_mem kv hm))

theorem alookup_append_cons {α : Type} (l₁ : List (String × α)) (kv : String × α)
    (l₂ : List (String × α)) (h : ∀ kv' ∈ l₁, kv'.1 ≠ kv.1) :
    alookup kv.1 (l₁ ++ kv :: l₂) = some kv.2 := by
  induction l₁ with
  | nil =>
    show alookup kv.1 (kv :: l₂) = some kv.2
    unfold alookup
    rw [if_pos rfl]
  | cons kv' rest ih =>
    rw [List.cons_append]
    unfold alookup
    rw [if_neg (h kv' (List.mem_cons_self _ _))]
    exact ih (fun x hm => h x (List.mem_cons_of_mem kv' hm))

theorem find?_first {α : Type} (p : α → Bool) (l₁ : List α) (a : α) (l₂ : List α)
    (h₁ : ∀ x ∈ l₁, p x = false) (ha : p a = true) :
    (l₁ ++ a :: l₂).find? p = some a := by
  induction l₁ with
  | nil =>
    show (a :: l₂).find? p = some a
    rw [List.find?_cons_of_pos _ ha]
  | cons x rest ih =>
    rw [List.cons_append,
      List.find?_cons_of_neg _ (by rw [h₁ x (List.mem_cons_self _ _)]; exact Bool.false_ne_true)]
    exact ih (fun y hm => h₁ y (List.mem_cons_of_mem x hm))

theorem nodup_keys_disj {α : Type} (l₁ : List (String × α)) (kv : String × α)
    (l₂ : List (String × α))
    (h : ((l₁ ++ kv :: l₂).map Prod.fst).Nodup) : ∀ kv' ∈ l₁, kv'.1 ≠ kv.1 := by
  rw [List.map_append, List.map_cons] at h
  have h2 := List.nodup_middle.mp h
  intro kv' hm he
  have hmem : kv.1 ∈ l₁.map Prod.fst := by
    rw [← he]
    exact List.mem_map_of_mem Prod.fst hm
  exact (List.nodup_cons.mp h2).1 (List.mem_append_left _ hmem)

theorem splitCol_ne_nil (l : List Char) : splitCol l ≠ [] := by
  cases l with
  | nil => simp [splitCol]
  | cons c rest =>
    unfold splitCol
    by_cases hc : c = ':'
    · simp [hc]
    · rw [if_neg hc]
      cases h : splitCol rest <;> simp

theorem splitCol_no_colon (l : List Char) : ∀ p ∈ splitCol l, ':' ∉ p := by
  induction l with
  | nil =>
    intro p hp
    simp only [splitCol, List.mem_singleton] at hp
    subst hp
    simp
  | cons c rest ih =>
    intro p hp
    unfold splitCol at hp
    by_cases hc : c = ':'
    · rw [if_pos hc] at hp
      rcases List.mem_cons.mp hp with h | h
      · subst h; simp
      · exact ih p h
    · rw [if_neg hc] at hp
      cases hsp : splitCol rest with
      | nil => exact absurd hsp (splitCol_ne_nil rest)
      | cons q qs =>
        rw [hsp] at hp
        rcases List.mem_cons.mp hp with h | h
        · subst h
          intro hmem
          rcases List.mem_cons.mp hmem with h' | h'
          · exact hc h'.symm
          · exact ih q (by rw [hsp]; exact List.mem_cons_self _ _) h'
        · exact ih p (by rw [hsp]; exact List.mem_cons_of_mem q h)

theorem count_colon_sep (rest : List (List Char)) (h : ∀ p ∈ rest, ':' ∉ p) :
    ((rest.map (fun q => ':' :: q)).flatten).count ':' = rest.length := by
  induction rest with
  | nil => rfl
  | cons q qs ih =>
    rw [List.map_cons, List.flatten_cons, List.count_append, List.count_cons_self]
    rw [List.count_eq_zero.mpr (h q (List.mem_cons_self _ _))]
    rw [ih (fun p hp => h p (List.mem_cons_of_mem q hp))]
    simp [List.length_cons]
    omega

theorem count_colon_joinCol (ps : List (List Char)) (h : ∀ p ∈ ps, ':' ∉ p) :
    (joinCol ps).count ':' = ps.length - 1 := by
  cases ps with
  | nil => rfl
  | cons p rest =>
    unfold joinCol
    rw [List.count_append, List.count_eq_zero.mpr (h p (List.mem_cons_self _ _))]
    rw [count_colon_sep rest (fun q hq => h q (List.mem_cons_of_mem p hq))]
    simp

theorem pyIndexGet_nonneg {α : Type} (l : List α) (i : Int) (h0 : 0 ≤ i)
    (hlt : i < (l.length : Int)) : pyIndexGet l i = l.get? i.toNat := by
  unfold pyIndexGet
  rw [if_pos h0, if_pos hlt]

theorem pyIndexGet_neg {α : Type} (l : List α) (i : Int) (h0 : i < 0)
    (hge : 0 ≤ (l.length : Int) + i) :
    pyIndexGet l i = l.get? ((l.length : Int) + i).toNat := by
  unfold pyIndexGet
  rw [if_neg (by omega), if_pos hge]

theorem pyIndexGet_oob {α : Type} (l : List α) (i : Int)
    (h : i < -(l.length : Int) ∨ (l.length : Int) ≤ i) : pyIndexGet l i = none := by
  unfold pyIndexGet
  rcases h with h | h
  · rw [if_neg (by omega), if_neg (by omega)]
  · rw [if_pos (by omega), if_neg (by omega)]

theorem resolve_choice_num (choice : String) (keys : List String) (n : Int)
    (hp : pyInt choice = some n) :
    resolve_choice choice keys
      = (match pyIndexGet keys (n - 1) with
         | some k => k
         | none => choice) := by
  unfold resolve_choice
  rw [hp]

/-! ## Helper lemmas for the formatter claims -/

theorem substCmd_mac_empty (c : String) (vendor model : Option String) :
    substCmd c (some "") vendor model = substCmd c none vendor model := by
  unfold substCmd
  have h : pyOrOpt (some "") "<MAC>" = pyOrOpt none "<MAC>" := by simp [pyOrOpt]
  rw [h]

theorem substCmd_vendor_empty (c : String) (mac model : Option String) :
    substCmd c mac (some "") model = substCmd c mac none model := by
  unfold substCmd
  have h : pyOrOpt (some "") "<vendor>" = pyOrOpt none "<vendor>" := by simp [pyOrOpt]
  rw [h]

theorem substCmd_model_empty (c : String) (mac vendor : Option String) :
    substCmd c mac vendor (some "") = substCmd c mac vendor none := by
  unfold substCmd
  have h : pyOrOpt (some "") "<model>" = pyOrOpt none "<model>" := by simp [pyOrOpt]
  rw [h]

theorem vendorGuessLine_empty (vm : Option (List (String × String))) :
    vendorGuessLine (some "") vm = vendorGuessLine none vm := by
  cases vm with
  | none => rfl
  | some vmap => simp [vendorGuessLine]

theorem renderEntry_mac_empty (e : PolicyEntry) (vendor model : Option String)
    (vm : Option (List (String × String))) :
    renderEntry e (some "") vendor model vm = renderEntry e none vendor model vm := by
  unfold renderEntry
  rw [vendorGuessLine_empty]
  simp only [substCmd_mac_empty]

theorem renderEntry_vendor_empty (e : PolicyEntry) (mac model : Option String)
    (vm : Option (List (String × String))) :
    renderEntry e mac (some "") model vm = renderEntry e mac none model vm := by
  unfold renderEntry
  simp only [substCmd_vendor_empty]

theorem renderEntry_model_empty (e : PolicyEntry) (mac vendor : Option String)
    (vm : Option (List (String × String))) :
    renderEntry e mac vendor (some "") vm = renderEntry e mac vendor none vm := by
  unfold renderEntry
  simp only [substCmd_model_empty]

theorem execute_plan_fst (r : String → Nat → RunOutcome) (steps : List Step)
    (mac vname mname : String) :
    (((steps.map (fun st => st.commands.map (fun cmd =>
        (substExec cmd mac vname mname,
         run_command r (substExec cmd mac vname mname))))).flatten).map Prod.fst)
      = ((steps.map Step.commands).flatten).map
          (fun c => substExec c mac vname mname) := by
  induction steps with
  | nil => rfl
  | cons st rest ih =>
    simp only [List.map_cons, List.flatten_cons, List.map_append, ih, List.map_map]
    congr 1

/-! ## Claim theorems -/

/-- C1, counterexample: the claim says every numeric selection outside
`1 ≤ n ≤ |table|` is an error; but on the embedded policy table the raw
choice `"0"` (which parses as the integer 0, outside that range)
resolves to the last key of the table, a valid selection rather than an
error. -/
theorem C1_counterexample :
    resolve_choice "0" (EMBEDDED_PROBS.map Prod.fst) = "connect_failed_audio" ∧
    "connect_failed_audio" ∈ EMBEDDED_PROBS.map Prod.fst := by
  constructor
  · decide
  · decide

/-- C1, amended: a raw choice parsing as integer `n` with
`1 ≤ n ≤ |table|` resolves to the `n`-th key in table order; `n` with
`1 - |table| ≤ n ≤ 0` resolves, by negative indexing, to the key at
0-based position `|table| + n - 1`; and `n` outside `[1 - |table|,
|table|]` makes the selection fall back to treating the raw digit
string itself as a string key (which the matcher then resolves by
exact/substring search), not an error. -/
theorem C1_amended_numeric_selection (keys : List String) (s : String) (n : Int)
    (hp : pyInt s = some n) :
    (∀ k, 1 ≤ n → n ≤ (keys.length : Int) → keys.get? (n - 1).toNat = some k →
      resolve_choice s keys = k) ∧
    (∀ k, 1 - (keys.length : Int) ≤ n → n ≤ 0 →
      keys.get? ((keys.length : Int) + n - 1).toNat = some k →
      resolve_choice s keys = k) ∧
    ((n < 1 - (keys.length : Int) ∨ (keys.length : Int) < n) →
      resolve_choice s keys = s) := by
  refine ⟨?_, ?_, ?_⟩
  · intro k h1 h2 hget
    rw [resolve_choice_num s keys n hp,
      pyIndexGet_nonneg keys (n - 1) (by omega) (by omega), hget]
  · intro k h1 h2 hget
    rw [resolve_choice_num s keys n hp,
      pyIndexGet_neg keys (n - 1) (by omega) (by omega),
      show (keys.length : Int) + (n - 1) = (keys.length : Int) + n - 1 by omega, hget]
  · intro h
    rw [resolve_choice_num s keys n hp, pyIndexGet_oob keys (n - 1) (by omega)]

/-- C1 witness: on the embedded table's keys, the choice `"2"` resolves
to the second key. -/
theorem C1_amended_numeric_selection_witness :
    resolve_choice "2" ["no_adapter", "connect_failed_audio"] = "connect_failed_audio" :=
  (C1_amended_numeric_selection ["no_adapter", "connect_failed_audio"] "2" 2
      (by decide)).1 "connect_failed_audio" (by decide) (by decide) (by decide)

/-- C2: when the input key has no exact match, the matcher selects the
first entry in table order whose key or description contains the input
case-insensitively, and renders that entry; when no entry matches,
`format_plan` returns the policy-not-found message listing every
available key in table order. -/
theorem C2_fuzzy_match (probs : List (String × PolicyEntry)) (key : String)
    (mac dt vendor model : Option String) (vm : Option (List (String × String)))
    (hnx : alookup key probs = none)
    (hnod : (probs.map Prod.fst).Nodup) :
    ((∀ kv ∈ probs, matchPred key kv = false) →
      format_plan key probs mac dt vendor model vm
        = "No policy found for \x27" ++ key ++ "\x27. Available: "
            ++ String.intercalate ", " (probs.map Prod.fst)) ∧
    (∀ l₁ kv l₂, probs = l₁ ++ kv :: l₂ →
      (∀ kv' ∈ l₁, matchPred key kv' = false) → matchPred key kv = true →
      format_plan key probs mac dt vendor model vm
        = renderEntry kv.2 mac vendor model vm) := by
  constructor
  · intro hall
    unfold format_plan
    have h1 : resolveKey key probs = none := by
      unfold resolveKey
      rw [if_neg (by rw [hnx]; simp),
        List.find?_eq_none.mpr (fun x hx => by rw [hall x hx]; exact Bool.false_ne_true)]
    rw [h1]
  · intro l₁ kv l₂ hdecomp hbefore hkv
    have hfind : probs.find? (matchPred key) = some kv := by
      rw [hdecomp]
      exact find?_first _ l₁ kv l₂ hbefore hkv
    have h1 : resolveKey key probs = some kv.1 := by
      unfold resolveKey
      rw [if_neg (by rw [hnx]; simp), hfind]
    have h2 : alookup kv.1 probs = some kv.2 := by
      rw [hdecomp]
      exact alookup_append_cons l₁ kv l₂ (nodup_keys_disj l₁ kv l₂ (hdecomp ▸ hnod))
    unfold format_plan
    rw [h1]
    show (match alookup kv.1 probs with
          | some entry => renderEntry entry mac vendor model vm
          | none => "") = renderEntry kv.2 mac vendor model vm
    rw [h2]

/-- C2 witness: on the embedded table, the input `"audio"` (a substring
of the second entry's key and description, matching no key exactly)
selects the second entry. -/
theorem C2_fuzzy_match_witness :
    format_plan "audio" EMBEDDED_PROBS none none none none none
      = renderEntry CONNECT_AUDIO_ENTRY none none none none :=
  (C2_fuzzy_match EMBEDDED_PROBS "audio" none none none none none
      (by decide) (by decide)).2
    [("no_adapter", NO_ADAPTER_ENTRY)] ("connect_failed_audio", CONNECT_AUDIO_ENTRY) []
    rfl (by decide) (by decide)

/-- C3: an input exactly (case-sensitively) equal to a table key makes
`format_plan` render that key's entry, with no hypothesis about (hence
no dependence on) any other entry's key or description. -/
theorem C3_exact_match (key : String) (probs : List (String × PolicyEntry))
    (e : PolicyEntry) (mac dt vendor model : Option String)
    (vm : Option (List (String × String)))
    (hx : alookup key probs = some e) :
    format_plan key probs mac dt vendor model vm = renderEntry e mac vendor model vm := by
  unfold format_plan
  have h1 : resolveKey key probs = some key := by
    unfold resolveKey
    rw [if_pos (by rw [hx]; rfl)]
  rw [h1]
  show (match alookup key probs with
        | some entry => renderEntry entry mac vendor model vm
        | none => "") = renderEntry e mac vendor model vm
  rw [hx]

/-- C3 witness: the exact key `"no_adapter"` selects its own entry even
though the input is also a substring of that entry's key. -/
theorem C3_exact_match_witness :
    format_plan "no_adapter" EMBEDDED_PROBS none none none none none
      = renderEntry NO_ADAPTER_ENTRY none none none none :=
  C3_exact_match "no_adapter" EMBEDDED_PROBS NO_ADAPTER_ENTRY
    none none none none none (by decide)

/-- C5: for a vendor table whose keys are three-octet prefixes (two
colons), `guess_vendor` returns the mapped name exactly when the
uppercased first three colon-separated octets of the MAC form a key of
the table; the empty string, an input with fewer than three
colon-separated parts, and an unknown prefix all yield `none`, and the
function is total (it never fails). -/
theorem C5_guess_vendor (vendors : List (String × String))
    (hk : ∀ kv ∈ vendors, countChar ':' kv.1 = 2) (mac : String) :
    (mac = "" → guess_vendor mac vendors = none) ∧
    (∀ name, mac ≠ "" → alookup (firstThreeOctets mac) vendors = some name →
      guess_vendor mac vendors = some name) ∧
    (mac ≠ "" → (splitCol (upperS mac).data).length < 3 →
      guess_vendor mac vendors = none) ∧
    (mac ≠ "" → alookup (firstThreeOctets mac) vendors = none →
      guess_vendor mac vendors = none) := by
  refine ⟨?_, ?_, ?_, ?_⟩
  · intro h
    unfold guess_vendor
    rw [if_pos h]
  · intro name hne hl
    unfold guess_vendor
    rw [if_neg hne, hl]
  · intro hne hlen
    unfold guess_vendor
    rw [if_neg hne]
    apply alookup_eq_none
    intro kv hkv he
    have h2 := hk kv hkv
    have h1 : countChar ':' (firstThreeOctets mac) ≤ 1 := by
      unfold firstThreeOctets countChar
      show (joinCol ((splitCol (upperS mac).data).take 3)).count ':' ≤ 1
      rw [List.take_of_length_le (Nat.le_of_lt hlen),
        count_colon_joinCol _ (splitCol_no_colon _)]
      omega
    rw [he] at h2
    omega
  · intro hne hl
    unfold guess_vendor
    rw [if_neg hne, hl]

/-- C5 witness: the spec scenario, with lowercase input uppercased
before the prefix lookup. -/
theorem C5_guess_vendor_witness :
    guess_vendor "aa:bb:cc:11:22:33" [("AA:BB:CC", "Acme")] = some "Acme" :=
  (C5_guess_vendor [("AA:BB:CC", "Acme")] (by decide) "aa:bb:cc:11:22:33").2.1
    "Acme" (by decide) (by decide)

/-- C6, counterexample: the claim says a missing table file produces
the embedded defaults AND a warning; in the code the warning is printed
only from the exception handler of a failed load, so a missing file
falls back silently — here `load_json` on a missing problems file
returns the embedded defaults with an empty warning list. -/
theorem C6_counterexample :
    load_json "problems.json" FileState.missing EMBEDDED_PROBS
      = (EMBEDDED_PROBS, ([] : List String)) := rfl

/-- C6, amended: a missing table file falls back to the embedded
defaults silently (no warning); a file with invalid JSON falls back to
the embedded defaults and emits a warning naming the path and error; a
valid file is used as-is; in every case `load_json` returns normally
(never aborts). -/
theorem C6_amended_load_json {J : Type} (path : String) (fb j : J) (e : String) :
    load_json path FileState.missing fb = (fb, []) ∧
    load_json path (FileState.invalid e) fb
      = (fb, ["[warn] failed to load " ++ path ++ ": " ++ e]) ∧
    load_json path (FileState.valid j) fb = (j, []) :=
  ⟨rfl, rfl, rfl⟩

/-- C4, counterexample: substitution is not idempotent and not total
when a supplied value itself contains a placeholder token — on the
command `"<vendor>"` with MAC value `"X"` and vendor value `"<MAC>"`,
one application yields `"<MAC>"` (an occurrence of a token whose value
was supplied remains), and a second application changes the result
to `"X"`. -/
theorem C4_counterexample :
    substCmd (substCmd "<vendor>" (some "X") (some "<MAC>") none)
        (some "X") (some "<MAC>") none
      ≠ substCmd "<vendor>" (some "X") (some "<MAC>") none ∧
    pyContains (substCmd "<vendor>" (some "X") (some "<MAC>") none) "<MAC>" = true := by
  constructor
  · decide
  · decide

/-- C4, amended: for a command template made of literal segments free
of the character `<` and placeholder tokens, and supplied values free
of `<`, the substitution replaces every token occurrence with its
supplied value (absent or empty values leave their token as literal
text), is idempotent, and leaves no occurrence of a token whose value
was effectively supplied; a supplied value containing or assembling a
placeholder token defeats this (see the counterexample). -/
theorem C4_amended_substitution (bs : List Blk) (mac vendor model : Option String)
    (hlit : litsOK bs = true) (hm : valOK mac = true) (hv : valOK vendor = true)
    (hmo : valOK model = true) :
    (substCmd (renderB bs) mac vendor model = renderB (substB mac vendor model bs)) ∧
    (substCmd (substCmd (renderB bs) mac vendor model) mac vendor model
      = substCmd (renderB bs) mac vendor model) ∧
    (∀ w, effVal mac = some w →
      pyContains (substCmd (renderB bs) mac vendor model) "<MAC>" = false) ∧
    (∀ w, effVal vendor = some w →
      pyContains (substCmd (renderB bs) mac vendor model) "<vendor>" = false) ∧
    (∀ w, effVal model = some w →
      pyContains (substCmd (renderB bs) mac vendor model) "<model>" = false) := by
  have hl := litsOK_spec bs hlit
  have hm' := valOK_spec mac hm
  have hv' := valOK_spec vendor hv
  have hmo' := valOK_spec model hmo
  have hmain := substCmd_renderB bs mac vendor model hl hm' hv'
  have hlits2 := substB_lits mac vendor model bs hl hm' hv' hmo'
  refine ⟨hmain, ?_, ?_, ?_, ?_⟩
  · rw [hmain, substCmd_renderB _ mac vendor model hlits2 hm' hv', substB_substB]
  · intro w hev
    rw [hmain]
    show containsL (renderB (substB mac vendor model bs)).data (tokStr Tok.mac).data = false
    exact containsL_renderB_false Tok.mac _ hlits2
      (substB_noTok_mac mac vendor model bs w hev)
  · intro w hev
    rw [hmain]
    show containsL (renderB (substB mac vendor model bs)).data (tokStr Tok.vendor).data = false
    exact containsL_renderB_false Tok.vendor _ hlits2
      (substB_noTok_vendor mac vendor model bs w hev)
  · intro w hev
    rw [hmain]
    show containsL (renderB (substB mac vendor model bs)).data (tokStr Tok.model).data = false
    exact containsL_renderB_false Tok.model _ hlits2
      (substB_noTok_model mac vendor model bs w hev)

/-- C4 witness: the spec scenario `"sudo bluetoothctl info <MAC>"` with
a concrete MAC, rendered as a block list. -/
theorem C4_amended_substitution_witness :
    substCmd (renderB [Blk.lit "sudo bluetoothctl info ", Blk.tok Tok.mac])
        (some "11:22:33:44:55:66") (some "JBL") none
      = renderB (substB (some "11:22:33:44:55:66") (some "JBL") none
          [Blk.lit "sudo bluetoothctl info ", Blk.tok Tok.mac]) :=
  (C4_amended_substitution [Blk.lit "sudo bluetoothctl info ", Blk.tok Tok.mac]
    (some "11:22:33:44:55:66") (some "JBL") none
    (by decide) (by decide) (by decide) (by decide)).1

/-- C7: when execution is confirmed, every command of every remediation
step of the matched entry is substituted and passed to the runner with
the fixed timeout 15; the list of commands executed does not depend on
any outcome of the runner (execution proceeds past failures); each
captured output is `run_command`'s result for that command; and a
raised error is captured as the literal text `"Error: <message>"`
rather than propagated. -/
theorem C7_execution (runner runner' : String → Nat → RunOutcome)
    (entry : PolicyEntry) (mac vname mname : String) :
    ((execute_plan runner entry mac vname mname).map Prod.fst
      = ((entry.remediation_steps.map Step.commands).flatten).map
          (fun c => substExec c mac vname mname)) ∧
    ((execute_plan runner entry mac vname mname).map Prod.fst
      = (execute_plan runner' entry mac vname mname).map Prod.fst) ∧
    (∀ ce out, (ce, out) ∈ execute_plan runner entry mac vname mname →
      out = run_command runner ce) ∧
    (∀ c e, runner c 15 = RunOutcome.exc e →
      run_command runner c = "Error: " ++ e) := by
  refine ⟨?_, ?_, ?_, ?_⟩
  · exact execute_plan_fst runner entry.remediation_steps mac vname mname
  · exact (execute_plan_fst runner entry.remediation_steps mac vname mname).trans
      (execute_plan_fst runner' entry.remediation_steps mac vname mname).symm
  · intro ce out hmem
    unfold execute_plan at hmem
    obtain ⟨l, hl, hmem2⟩ := List.mem_flatten.mp hmem
    obtain ⟨st, hst, rfl⟩ := List.mem_map.mp hl
    obtain ⟨cmd, hcmd, heq⟩ := List.mem_map.mp hmem2
    cases heq
    rfl
  · intro c e h
    unfold run_command
    rw [h]

/-- C7 witness: with an always-failing runner and an always-succeeding
runner, the same command list is executed on the embedded audio entry,
and a failure outcome is captured as literal error text. -/
theorem C7_execution_witness :
    ((execute_plan RUN_FAIL CONNECT_AUDIO_ENTRY "11:22:33:44:55:66" "JBL" "Tune").map Prod.fst
      = (execute_plan RUN_OK CONNECT_AUDIO_ENTRY "11:22:33:44:55:66" "JBL" "Tune").map Prod.fst) ∧
    run_command RUN_FAIL "sudo systemctl restart bluetooth" = "Error: timeout" :=
  ⟨(C7_execution RUN_FAIL RUN_OK CONNECT_AUDIO_ENTRY "11:22:33:44:55:66" "JBL" "Tune").2.1,
   (C7_execution RUN_FAIL RUN_OK CONNECT_AUDIO_ENTRY "11:22:33:44:55:66" "JBL" "Tune").2.2.2
     "sudo systemctl restart bluetooth" "timeout" rfl⟩

/-- C8: on a non-empty policy table the raw choice `"0"` resolves to
the last key in table order, and more generally every integer choice
`n` with `1 - |table| ≤ n ≤ 0` resolves via Python negative indexing to
the key at 0-based position `|table| + n - 1` rather than being
rejected. -/
theorem C8_negative_index (keys : List String) (hne : keys ≠ []) :
    resolve_choice "0" keys = keys.getLast hne ∧
    (∀ (s : String) (n : Int) (k : String), pyInt s = some n →
      1 - (keys.length : Int) ≤ n → n ≤ 0 →
      keys.get? ((keys.length : Int) + n - 1).toNat = some k →
      resolve_choice s keys = k) := by
  have hlen : 1 ≤ keys.length := by
    cases keys with
    | nil => exact absurd rfl hne
    | cons a as => simp
  constructor
  · have hp0 : pyInt "0" = some 0 := by decide
    rw [resolve_choice_num "0" keys 0 hp0,
      pyIndexGet_neg keys (0 - 1) (by omega) (by omega),
      show ((keys.length : Int) + (0 - 1)).toNat = keys.length - 1 by omega,
      show keys.get? (keys.length - 1) = some (keys.getLast hne) by
        rw [← List.getLast?_eq_get?, List.getLast?_eq_getLast keys hne]]
  · intro s n k hp h1 h2 hget
    rw [resolve_choice_num s keys n hp,
      pyIndexGet_neg keys (n - 1) (by omega) (by omega),
      show (keys.length : Int) + (n - 1) = (keys.length : Int) + n - 1 by omega, hget]

/-- C8 witness: on the embedded table's key list, `"0"` selects the
last key and `"-1"` selects the first key. -/
theorem C8_negative_index_witness :
    resolve_choice "0" ["no_adapter", "connect_failed_audio"] = "connect_failed_audio" ∧
    resolve_choice "-1" ["no_adapter", "connect_failed_audio"] = "no_adapter" := by
  constructor
  · have h := (C8_negative_index ["no_adapter", "connect_failed_audio"] (by decide)).1
    simpa using h
  · exact (C8_negative_index ["no_adapter", "connect_failed_audio"] (by decide)).2
      "-1" (-1) "no_adapter" (by decide) (by decide) (by decide) (by decide)

/-- C9: in `format_plan` an empty-string value for mac, vendor or model
behaves exactly like an absent value — both in the per-command
placeholder substitution and in the full rendered report. -/
theorem C9_empty_equals_absent (key : String) (probs : List (String × PolicyEntry))
    (dt mac vendor model : Option String) (vm : Option (List (String × String)))
    (c : String) :
    (substCmd c (some "") vendor model = substCmd c none vendor model) ∧
    (substCmd c mac (some "") model = substCmd c mac none model) ∧
    (substCmd c mac vendor (some "") = substCmd c mac vendor none) ∧
    (format_plan key probs (some "") dt vendor model vm
      = format_plan key probs none dt vendor model vm) ∧
    (format_plan key probs mac dt (some "") model vm
      = format_plan key probs mac dt none model vm) ∧
    (format_plan key probs mac dt vendor (some "") vm
      = format_plan key probs mac dt vendor none vm) := by
  have hfp : ∀ (m1 m2 v1 v2 mo1 mo2 : Option String),
      (∀ e : PolicyEntry, renderEntry e m1 v1 mo1 vm = renderEntry e m2 v2 mo2 vm) →
      format_plan key probs m1 dt v1 mo1 vm = format_plan key probs m2 dt v2 mo2 vm := by
    intro m1 m2 v1 v2 mo1 mo2 hre
    unfold format_plan
    cases hrk : resolveKey key probs with
    | none => rfl
    | some k =>
      show (match alookup k probs with
            | some entry => renderEntry entry m1 v1 mo1 vm
            | none => "")
          = (match alookup k probs with
            | some entry => renderEntry entry m2 v2 mo2 vm
            | none => "")
      cases hak : alookup k probs with
      | none => rfl
      | some e => exact hre e
  refine ⟨substCmd_mac_empty c vendor model, substCmd_vendor_empty c mac model,
    substCmd_model_empty c mac vendor, ?_, ?_, ?_⟩
  · exact hfp _ _ _ _ _ _ (fun e => renderEntry_mac_empty e vendor model vm)
  · exact hfp _ _ _ _ _ _ (fun e => renderEntry_vendor_empty e mac model vm)
  · exact hfp _ _ _ _ _ _ (fun e => renderEntry_model_empty e mac vendor vm)

/-- C10: the `dev_type` argument of `format_plan` has no influence on
the returned report — any two calls differing only in `dev_type` return
identical strings. -/
theorem C10_dev_type_no_influence (key : String) (probs : List (String × PolicyEntry))
    (mac vendor model : Option String) (vm : Option (List (String × String)))
    (dt1 dt2 : Option String) :
    format_plan key probs mac dt1 vendor model vm
      = format_plan key probs mac dt2 vendor model vm := rfl

end BTO
